import Mathlib

/-!
Verification development for the `joule_solve` driver of the hephaestus
repository (`src/hephaestus_lib/hephaestus_joule.hpp`).

The driver is shallowly embedded: time and step size are modelled as
rationals (idealised reals), the time-integration loop as a fuel-indexed
recursion, the block-vector offset construction as functions on `ℕ`,
the per-iteration side effects as an event list, and the boundary-value
functions over `ℝ` with `Real.cos` standing for libm `cos`.
-/

/-! ### Time-integration loop (hephaestus_joule.hpp lines 634-648)

The C++ loop is
  `double t = 0.0; bool last_step = false;`
  `for (int ti = 1; !last_step; ti++) {`
  `   if (t + dt >= t_final - dt/2) { last_step = true; }`
  `   ode_solver->Step(F, t, dt);   // advances t by the full dt`
  `   ... }`
`mfem::ODESolver::Step` advances `t` by exactly `dt` for every solver
selected by this driver.  The recursion below returns the final time and
the final iteration counter `ti`; `none` means the fuel ran out. -/

def timeLoopGo (dt tFinal : ℚ) : ℕ → ℚ → ℕ → Option (ℚ × ℕ)
  | 0, _, _ => none
  | fuel + 1, t, ti =>
      if tFinal - dt / 2 ≤ t + dt then some (t + dt, ti)
      else timeLoopGo dt tFinal fuel (t + dt) (ti + 1)

def timeLoop (dt tFinal : ℚ) (fuel : ℕ) : Option (ℚ × ℕ) :=
  timeLoopGo dt tFinal fuel 0 1

/-! ### ODE solver selection (hephaestus_joule.hpp lines 360-378) -/

inductive ODESolverKind where
  | backwardEuler
  | sdirk2
  | sdirk3
  | implicitMidpoint
  | sdirk23
  | sdirk34
deriving DecidableEq

/-- The `switch (ode_solver_type)` of step 6 of the driver: cases 1, 2, 3,
22, 23, 34 construct a solver, the default branch is the error path. -/
def selectOdeSolver (s : Int) : Option ODESolverKind :=
  if s = 1 then some ODESolverKind.backwardEuler
  else if s = 2 then some ODESolverKind.sdirk2
  else if s = 3 then some ODESolverKind.sdirk3
  else if s = 22 then some ODESolverKind.implicitMidpoint
  else if s = 23 then some ODESolverKind.sdirk23
  else if s = 34 then some ODESolverKind.sdirk34
  else none

/-- Control flow of `joule_solve` around solver selection: on an unknown
selector the function prints a message, deletes the mesh and returns exit
code 3 before the time loop; otherwise setup completes and the time loop
runs. `Except.error 3` models the early return; `Except.ok` carries the
time-loop result. -/
def jouleDriver (odeSolverType : Int) (dt tFinal : ℚ) (fuel : ℕ) :
    Except Nat (Option (ℚ × ℕ)) :=
  match selectOdeSolver odeSolverType with
  | none => Except.error 3
  | some _ => Except.ok (timeLoop dt tFinal fuel)

/-! ### Block-vector offsets (hephaestus_joule.hpp lines 502-536) -/

/-- The `mfem::Array<int> true_offset(7)` construction, lines 515-522:
cumulative offsets over the sizes `[Vsize_l2, Vsize_rt, Vsize_h1,
Vsize_nd, Vsize_rt, Vsize_l2]` of the six blocks T, F, P, E, B, w. -/
def true_offset (Vsize_l2 Vsize_nd Vsize_rt Vsize_h1 : ℕ) : List ℕ :=
  let t0 := 0
  let t1 := t0 + Vsize_l2
  let t2 := t1 + Vsize_rt
  let t3 := t2 + Vsize_h1
  let t4 := t3 + Vsize_nd
  let t5 := t4 + Vsize_rt
  let t6 := t5 + Vsize_l2
  [t0, t1, t2, t3, t4, t5, t6]

/-- The generic `computeOffsets` operation of spec section 4.1, of which
`true_offset` is the unrolled instance: cumulative offsets of an ordered
list of per-field DOF counts. -/
def computeOffsets : List ℕ → List ℕ
  | [] => [0]
  | s :: rest => 0 :: (computeOffsets rest).map (fun o => s + o)

theorem computeOffsets_length (sizes : List ℕ) :
    (computeOffsets sizes).length = sizes.length + 1 := by
  induction sizes with
  | nil => rfl
  | cons s rest ih => simp [computeOffsets, ih]

theorem getD_map_add (s : ℕ) (l : List ℕ) (i : ℕ) (h : i < l.length) :
    (l.map (fun o => s + o)).getD i 0 = s + l.getD i 0 := by
  induction l generalizing i with
  | nil => simp at h
  | cons a rest ih =>
      cases i with
      | zero => simp
      | succ j =>
          simp only [List.map_cons, List.getD_cons_succ]
          exact ih j (by simpa using h)

theorem computeOffsets_zero (sizes : List ℕ) :
    (computeOffsets sizes).getD 0 0 = 0 := by
  cases sizes <;> rfl

theorem computeOffsets_step (sizes : List ℕ) (i : ℕ) (h : i < sizes.length) :
    (computeOffsets sizes).getD (i + 1) 0 =
      (computeOffsets sizes).getD i 0 + sizes.getD i 0 := by
  induction sizes generalizing i with
  | nil => simp at h
  | cons s rest ih =>
      cases i with
      | zero =>
          simp only [computeOffsets, List.getD_cons_succ, List.getD_cons_zero]
          rw [getD_map_add s _ 0 (by simp [computeOffsets_length]),
              computeOffsets_zero rest]
          omega
      | succ j =>
          have hj : j < rest.length := by simpa using h
          simp only [computeOffsets, List.getD_cons_succ]
          rw [getD_map_add s _ (j + 1) (by simp [computeOffsets_length]; omega),
              getD_map_add s _ j (by simp [computeOffsets_length]; omega),
              ih j hj]
          omega

theorem computeOffsets_last (sizes : List ℕ) :
    (computeOffsets sizes).getD sizes.length 0 = sizes.sum := by
  induction sizes with
  | nil => rfl
  | cons s rest ih =>
      simp only [computeOffsets, List.length_cons, List.getD_cons_succ, List.sum_cons]
      rw [getD_map_add s _ rest.length (by simp [computeOffsets_length]), ih]

theorem true_offset_eq_computeOffsets (l2 nd rt h1 : ℕ) :
    true_offset l2 nd rt h1 = computeOffsets [l2, rt, h1, nd, rt, l2] := by
  simp [true_offset, computeOffsets]
  omega

/-! ### Function spaces and block layout (hephaestus_joule.hpp lines 478-536)

A `ParFiniteElementSpace` is abstracted to its two DOF counts:
`GetVSize()` (the full local vector size, shared DOFs counted on every
rank that touches them) and `GetTrueVSize()` (the unique, non-redundant
count).  The driver sizes the blocks with `GetVSize` (lines 502-505) and
associates the grid functions to spaces by `MakeRef` (lines 531-536):
T on L2, F on HDiv, P on HGrad, E on HCurl, B on HDiv, w on L2. -/

structure ParFiniteElementSpace where
  vsize : ℕ
  tvsize : ℕ

def jouleBlockSpace (L2FESpace HCurlFESpace HDivFESpace HGradFESpace :
    ParFiniteElementSpace) : Fin 6 → ParFiniteElementSpace
  | 0 => L2FESpace
  | 1 => HDivFESpace
  | 2 => HGradFESpace
  | 3 => HCurlFESpace
  | 4 => HDivFESpace
  | 5 => L2FESpace

/-- Calling `ParGridFunction::MakeRef(fes, F, offset)` gives the grid function the
length `fes->GetVSize()`; this is the length of each named sub-vector. -/
def jouleBlockLength (L2FESpace HCurlFESpace HDivFESpace HGradFESpace :
    ParFiniteElementSpace) : Fin 6 → ℕ :=
  fun i => (jouleBlockSpace L2FESpace HCurlFESpace HDivFESpace HGradFESpace i).vsize

/-- The offsets array actually built by the driver from the four spaces,
using `GetVSize` of each space (lines 502-522). -/
def jouleTrueOffset (L2FESpace HCurlFESpace HDivFESpace HGradFESpace :
    ParFiniteElementSpace) : List ℕ :=
  true_offset L2FESpace.vsize HCurlFESpace.vsize HDivFESpace.vsize HGradFESpace.vsize

/-- Offset of block `i` in the shared buffer, `true_offset[i]`. -/
def blockOffset (l2 nd rt h1 : ℕ) (i : Fin 6) : ℕ :=
  (true_offset l2 nd rt h1).getD (i : ℕ) 0

/-- Size of block `i`: `[Vsize_l2, Vsize_rt, Vsize_h1, Vsize_nd, Vsize_rt,
Vsize_l2]`, the sizes the offsets are accumulated from. -/
def blockVSize (l2 nd rt h1 : ℕ) : Fin 6 → ℕ
  | 0 => l2
  | 1 => rt
  | 2 => h1
  | 3 => nd
  | 4 => rt
  | 5 => l2

/-- Length of the `mfem::BlockVector F(true_offset)` shared buffer:
the last offset, `true_offset[6]`. -/
def bufferSize (l2 nd rt h1 : ℕ) : ℕ :=
  (true_offset l2 nd rt h1).getD 6 0

/-- A `MakeRef` view of block `i`: entry `j` of the view is entry
`true_offset[i] + j` of the shared buffer (aliasing, no copy). -/
def view (l2 nd rt h1 : ℕ) (buf : ℕ → ℝ) (i : Fin 6) : ℕ → ℝ :=
  fun j => buf (blockOffset l2 nd rt h1 i + j)

/-- In-place update of one entry of the shared buffer. -/
def updateBuf (buf : ℕ → ℝ) (k : ℕ) (v : ℝ) : ℕ → ℝ :=
  fun j => if j = k then v else buf j

/-! ### Per-iteration side effects (hephaestus_joule.hpp lines 649-759)

One loop iteration performs, in order: the grid-function printing block
when `gfprint == 1` (lines 654-706, every iteration, not gated by
`vis_steps`); then, when `last_step || (ti % vis_steps) == 0`
(line 708): the electrical-loss diagnostic (line 710), the collective
`MPI_Barrier` (line 722), the GLVis push when `visualization` (lines
724-751), and the VisIt snapshot save when `visit` (lines 753-758). -/

inductive Event where
  | gfSave
  | lossesDiag
  | barrier
  | visPush
  | visitSave
deriving DecidableEq

def iterEvents (gfprint visualization visit : Bool) (visSteps ti : ℕ)
    (lastStep : Bool) : List Event :=
  (if gfprint then [Event.gfSave] else []) ++
  (if lastStep || (ti % visSteps == 0) then
      [Event.lossesDiag, Event.barrier] ++
      (if visualization then [Event.visPush] else []) ++
      (if visit then [Event.visitSave] else [])
    else [])

/-! ### The gfprint block (hephaestus_joule.hpp lines 654-706)

Each `ofstream` is modelled by its closed flag, the field data actually
written to it, and the attempted writes together with whether the stream
was still open at the moment of the attempt (writing to a closed
`ofstream` sets the failbit and stores nothing). -/

inductive JField where
  | T
  | E
  | B
  | F
  | P
  | w
deriving DecidableEq

structure OStream where
  isClosed : Bool
  written : List JField
  attempted : List (JField × Bool)
deriving DecidableEq

def ofstreamOpen : OStream := ⟨false, [], []⟩

def saveGf (f : JField) (s : OStream) : OStream :=
  { s with
    attempted := s.attempted ++ [(f, !s.isClosed)]
    written := if s.isClosed then s.written else s.written ++ [f] }

def closeStream (s : OStream) : OStream := { s with isClosed := true }

structure GfprintResult where
  T_ofs : OStream
  E_ofs : OStream
  B_ofs : OStream
  F_ofs : OStream
  P_ofs : OStream
  w_ofs : OStream
deriving DecidableEq

/-- The body of `if (gfprint == 1)`, lines 677-706, stream by stream in
program order.  Note line 694: `F_gf.Save(B_ofs);` writes the thermal
flux into the B-field stream (already closed at line 690), while `F_ofs`
is closed at line 695 without any save into it. -/
def gfprintBlock : GfprintResult :=
  let T_ofs := closeStream (saveGf JField.T ofstreamOpen)
  let E_ofs := closeStream (saveGf JField.E ofstreamOpen)
  let B_ofs := closeStream (saveGf JField.B ofstreamOpen)
  let F_ofs := ofstreamOpen
  let B_ofs := saveGf JField.F B_ofs
  let F_ofs := closeStream F_ofs
  let P_ofs := closeStream (saveGf JField.P ofstreamOpen)
  let w_ofs := closeStream (saveGf JField.w ofstreamOpen)
  ⟨T_ofs, E_ofs, B_ofs, F_ofs, P_ofs, w_ofs⟩

/-! ### Boundary-value and exact-solution functions
(hephaestus_joule.hpp lines 119-121, 217-220, 787-826) -/

/-- Line 220: `wj_ = 2.0*M_PI*freq;` — the module-level angular frequency
captured by `p_bc`. -/
noncomputable def wj_of_freq (freq : ℝ) : ℝ := 2 * Real.pi * freq

/-- Function `p_bc` (lines 812-826): the driven-potential essential BC.  The value
of the mutable module-level scalar `wj_` is made an explicit argument. -/
noncomputable def p_bc (wj : ℝ) (x : Fin 3 → ℝ) (t : ℝ) : ℝ :=
  (if x 2 < 0 then (1 : ℝ) else -1) * Real.cos (wj * t)

/-- Function `edot_bc` (lines 787-790): `E = 0.0;` overwrites every entry of the
output vector with zero, whatever its length. -/
def edot_bc (x : Fin 3 → ℝ) {n : ℕ} (E : Fin n → ℝ) : Fin n → ℝ :=
  fun _ => 0

/-- Function `e_exact` (lines 792-797). -/
def e_exact (x : Fin 3 → ℝ) (t : ℝ) : Fin 3 → ℝ := ![0, 0, 0]

/-- Function `b_exact` (lines 799-804). -/
def b_exact (x : Fin 3 → ℝ) (t : ℝ) : Fin 3 → ℝ := ![0, 0, 0]

/-- Function `t_exact` (lines 806-810). -/
def t_exact (x : Fin 3 → ℝ) : ℝ := 0


/-! ### Claim theorems -/

theorem timeLoopGo_spec (dt tFinal : ℚ) :
    ∀ (fuel ti : ℕ) (t0 tf : ℚ) (n : ℕ),
      1 ≤ ti → t0 = ((ti - 1 : ℕ) : ℚ) * dt →
      (∀ m : ℕ, 1 ≤ m → m < ti → ¬(tFinal - dt / 2 ≤ (m : ℚ) * dt)) →
      timeLoopGo dt tFinal fuel t0 ti = some (tf, n) →
      ti ≤ n ∧ tf = (n : ℚ) * dt ∧ tFinal - dt / 2 ≤ (n : ℚ) * dt ∧
        ∀ m : ℕ, 1 ≤ m → m < n → ¬(tFinal - dt / 2 ≤ (m : ℚ) * dt) := by
  intro fuel
  induction fuel with
  | zero =>
      intro ti t0 tf n _ _ _ h
      simp [timeLoopGo] at h
  | succ f ih =>
      intro ti t0 tf n hti ht0 hmin h
      have hcast : ((ti - 1 : ℕ) : ℚ) = (ti : ℚ) - 1 := by
        push_cast [Nat.cast_sub hti]
        ring
      have hstep : t0 + dt = (ti : ℚ) * dt := by
        rw [ht0, hcast]; ring
      by_cases hc : tFinal - dt / 2 ≤ t0 + dt
      · rw [timeLoopGo, if_pos hc] at h
        simp only [Option.some.injEq, Prod.mk.injEq] at h
        obtain ⟨h1, h2⟩ := h
        subst h2
        refine ⟨le_refl _, ?_, ?_, hmin⟩
        · rw [← h1, hstep]
        · rw [← hstep]; exact hc
      · rw [timeLoopGo, if_neg hc] at h
        have hrec := ih (ti + 1) (t0 + dt) tf n (by omega)
          (by rw [hstep]; norm_num)
          (by
            intro m hm1 hm2
            rcases Nat.lt_succ_iff_lt_or_eq.mp hm2 with hlt | heq
            · exact hmin m hm1 hlt
            · subst heq
              rw [← hstep]
              exact hc)
          h
        exact ⟨by omega, hrec.2.1, hrec.2.2.1, hrec.2.2.2⟩

/-- Claim C1, counterexample.  With `dt = 1/2` and `t_final = 3/10` the
loop takes a single step of the full `dt` and exits with accumulated time
`1/2`: the step taken is not `min(dt, t_final - t) = 3/10`, and the final
time does not equal `t_final`. -/
theorem C1_counterexample :
    timeLoop (1 / 2) (3 / 10) 3 = some (1 / 2, 1) ∧
      (1 / 2 : ℚ) ≠ min (1 / 2) (3 / 10 - 0) ∧ (1 / 2 : ℚ) ≠ 3 / 10 := by
  norm_num [timeLoop, timeLoopGo]

/-- Claim C1, amended.  The loop starts at `t = 0` and advances by the
full `dt` on every iteration (no clamping of the last step), so after the
loop exits the accumulated time is `n * dt` where `n ≥ 1` is the least
iteration count with `n * dt ≥ t_final - dt/2`; the accumulated time need
not equal `t_final` when `t_final / dt` is not an integer. -/
theorem C1_amended (dt tFinal tf : ℚ) (n fuel : ℕ)
    (h : timeLoop dt tFinal fuel = some (tf, n)) :
    1 ≤ n ∧ tf = (n : ℚ) * dt ∧ tFinal - dt / 2 ≤ (n : ℚ) * dt ∧
      ∀ m : ℕ, 1 ≤ m → m < n → ¬(tFinal - dt / 2 ≤ (m : ℚ) * dt) := by
  have := timeLoopGo_spec dt tFinal fuel 1 0 tf n (le_refl 1) (by norm_num)
    (by intro m hm1 hm2; omega) h
  exact ⟨this.1, this.2.1, this.2.2.1, this.2.2.2⟩

/-- Claim C1, witness for the amended theorem at `dt = 1/2`,
`t_final = 3/4`. -/
theorem C1_amended_witness :
    (3 / 4 - (1 / 2) / 2 : ℚ) ≤ (1 : ℕ) * (1 / 2) :=
  (C1_amended (1 / 2) (3 / 4) (1 / 2) 1 3
    (by norm_num [timeLoop, timeLoopGo])).2.2.1

/-- Claim C2, counterexample.  A space whose full vector size (`GetVSize`,
here 2) exceeds its true, non-redundant size (`GetTrueVSize`, here 1), as
happens for shared DOFs on more than one rank: the driver sizes the block
with `GetVSize`, so the sub-vector length is not the true DOF count. -/
theorem C2_counterexample :
    jouleBlockLength ⟨2, 1⟩ ⟨2, 1⟩ ⟨2, 1⟩ ⟨2, 1⟩ 0 ≠
      (jouleBlockSpace ⟨2, 1⟩ ⟨2, 1⟩ ⟨2, 1⟩ ⟨2, 1⟩ 0).tvsize := by
  decide

/-- Claim C2, amended.  Each named sub-vector's length equals the full
local vector size (`GetVSize`) of its associated function space at
construction time — not the true (unique, non-redundant) DOF count, which
can be smaller — the offsets are monotonically nondecreasing, and block
`i` occupies exactly `[true_offset[i], true_offset[i] + length i)`. -/
theorem C2_amended (L2FESpace HCurlFESpace HDivFESpace HGradFESpace :
    ParFiniteElementSpace) :
    (∀ i : Fin 6,
      jouleBlockLength L2FESpace HCurlFESpace HDivFESpace HGradFESpace i =
        (jouleBlockSpace L2FESpace HCurlFESpace HDivFESpace HGradFESpace i).vsize) ∧
    (∀ i j : ℕ, i ≤ j → j ≤ 6 →
      (jouleTrueOffset L2FESpace HCurlFESpace HDivFESpace HGradFESpace).getD i 0 ≤
        (jouleTrueOffset L2FESpace HCurlFESpace HDivFESpace HGradFESpace).getD j 0) ∧
    (∀ i : Fin 6,
      (jouleTrueOffset L2FESpace HCurlFESpace HDivFESpace HGradFESpace).getD
          ((i : ℕ) + 1) 0 =
        (jouleTrueOffset L2FESpace HCurlFESpace HDivFESpace HGradFESpace).getD
          (i : ℕ) 0 +
        jouleBlockLength L2FESpace HCurlFESpace HDivFESpace HGradFESpace i) := by
  refine ⟨fun i => rfl, ?_, ?_⟩
  · intro i j hij hj6
    unfold jouleTrueOffset true_offset
    interval_cases j <;> interval_cases i <;> simp <;> omega
  · intro i
    fin_cases i <;>
      simp [jouleTrueOffset, true_offset, jouleBlockLength, jouleBlockSpace]

/-- Claim C2, witness for the amended theorem. -/
theorem C2_amended_witness :
    (jouleTrueOffset ⟨2, 1⟩ ⟨2, 1⟩ ⟨2, 1⟩ ⟨2, 1⟩).getD 0 0 ≤
      (jouleTrueOffset ⟨2, 1⟩ ⟨2, 1⟩ ⟨2, 1⟩ ⟨2, 1⟩).getD 6 0 :=
  (C2_amended ⟨2, 1⟩ ⟨2, 1⟩ ⟨2, 1⟩ ⟨2, 1⟩).2.1 0 6 (by norm_num) (le_refl 6)

/-- Claim C3: for every ordered list of per-field DOF counts the computed
offsets satisfy `offsets[0] = 0`, `offsets[i+1] = offsets[i] + sizes[i]`,
and the total buffer size `offsets[last]` equals the sum of the sizes;
the driver's `true_offset` array is exactly this computation on the sizes
`[Vsize_l2, Vsize_rt, Vsize_h1, Vsize_nd, Vsize_rt, Vsize_l2]`. -/
theorem C3_computeOffsets :
    (∀ sizes : List ℕ,
      (computeOffsets sizes).getD 0 0 = 0 ∧
      (∀ i : ℕ, i < sizes.length →
        (computeOffsets sizes).getD (i + 1) 0 =
          (computeOffsets sizes).getD i 0 + sizes.getD i 0) ∧
      (computeOffsets sizes).getD sizes.length 0 = sizes.sum) ∧
    (∀ l2 nd rt h1 : ℕ,
      true_offset l2 nd rt h1 = computeOffsets [l2, rt, h1, nd, rt, l2]) :=
  ⟨fun sizes =>
    ⟨computeOffsets_zero sizes,
     fun i h => computeOffsets_step sizes i h,
     computeOffsets_last sizes⟩,
   true_offset_eq_computeOffsets⟩

/-- Claim C3, witness. -/
theorem C3_computeOffsets_witness :
    (computeOffsets [4, 5]).getD 1 0 =
      (computeOffsets [4, 5]).getD 0 0 + ([4, 5] : List ℕ).getD 0 0 :=
  (C3_computeOffsets.1 [4, 5]).2.1 0 (by norm_num)

/-- Claim C4: the six sub-vector sizes sum to the shared buffer length
`true_offset[6]`, the address ranges of distinct blocks never overlap,
and a `MakeRef` view aliases the shared buffer without copying, so an
in-place update of the buffer is visible through every view. -/
theorem C4_blockVector (l2 nd rt h1 : ℕ) :
    (∑ i : Fin 6, blockVSize l2 nd rt h1 i) = bufferSize l2 nd rt h1 ∧
    (∀ i j : Fin 6, i ≠ j → ∀ a b : ℕ,
      a < blockVSize l2 nd rt h1 i → b < blockVSize l2 nd rt h1 j →
      blockOffset l2 nd rt h1 i + a ≠ blockOffset l2 nd rt h1 j + b) ∧
    (∀ (buf : ℕ → ℝ) (k : ℕ) (v : ℝ) (i : Fin 6) (jj : ℕ),
      view l2 nd rt h1 (updateBuf buf k v) i jj =
        if blockOffset l2 nd rt h1 i + jj = k then v
        else view l2 nd rt h1 buf i jj) := by
  refine ⟨?_, ?_, ?_⟩
  · simp [Fin.sum_univ_six, blockVSize, bufferSize, true_offset]
  · intro i j hij a b ha hb
    fin_cases i <;> fin_cases j <;>
      simp_all [blockOffset, blockVSize, true_offset] <;> omega
  · intro buf k v i jj
    rfl

/-- Claim C4, witness. -/
theorem C4_blockVector_witness :
    blockOffset 1 1 1 1 0 + 0 ≠ blockOffset 1 1 1 1 1 + 0 :=
  (C4_blockVector 1 1 1 1).2.1 0 1 (by decide) 0 0 (by decide) (by decide)

/-- Claim C5: a selector outside {1, 2, 3, 22, 23, 34} makes setup fail
fatally — the driver returns exit code 3 from the solver `switch`, before
the time loop ever runs — while any recognized selector lets the run
proceed to the time loop, so the error is never raised per-step. -/
theorem C5_odeSolverError (s : Int) (dt tFinal : ℚ) (fuel : ℕ) :
    (selectOdeSolver s = none ↔
      ¬(s = 1 ∨ s = 2 ∨ s = 3 ∨ s = 22 ∨ s = 23 ∨ s = 34)) ∧
    (selectOdeSolver s = none →
      jouleDriver s dt tFinal fuel = Except.error 3) ∧
    (∀ k : ODESolverKind, selectOdeSolver s = some k →
      jouleDriver s dt tFinal fuel = Except.ok (timeLoop dt tFinal fuel)) := by
  refine ⟨?_, ?_, ?_⟩
  · unfold selectOdeSolver
    split_ifs with h1 h2 h3 h4 h5 h6 <;> simp_all
  · intro h
    simp [jouleDriver, h]
  · intro k hk
    simp [jouleDriver, hk]

/-- Claim C5, witness at the unknown selector 7. -/
theorem C5_odeSolverError_witness :
    jouleDriver 7 (1 / 2) 1 4 = Except.error 3 :=
  (C5_odeSolverError 7 (1 / 2) 1 4).2.1 (by decide)

/-- Claim C6: within one loop iteration the electrical-loss diagnostic,
the GLVis visualization push and the VisIt snapshot save happen exactly
when the iteration counter is a multiple of `vis_steps` or the iteration
is the terminal step (and the corresponding output is enabled), and the
visualization push never occurs before the collective `MPI_Barrier` of
that block. -/
theorem C6_iterEvents (gfprint visualization visit : Bool) (visSteps ti : ℕ)
    (lastStep : Bool) :
    (Event.lossesDiag ∈ iterEvents gfprint visualization visit visSteps ti lastStep ↔
      (lastStep = true ∨ visSteps ∣ ti)) ∧
    (Event.visPush ∈ iterEvents gfprint visualization visit visSteps ti lastStep ↔
      ((lastStep = true ∨ visSteps ∣ ti) ∧ visualization = true)) ∧
    (Event.visitSave ∈ iterEvents gfprint visualization visit visSteps ti lastStep ↔
      ((lastStep = true ∨ visSteps ∣ ti) ∧ visit = true)) ∧
    (Event.visPush ∈ iterEvents gfprint visualization visit visSteps ti lastStep →
      (iterEvents gfprint visualization visit visSteps ti lastStep).indexOf
          Event.barrier <
        (iterEvents gfprint visualization visit visSteps ti lastStep).indexOf
          Event.visPush) := by
  have hmod : (ti % visSteps == 0) = true ↔ visSteps ∣ ti := by
    constructor
    · intro h
      exact Nat.dvd_of_mod_eq_zero (by simpa using h)
    · rintro ⟨c, rfl⟩
      simp [Nat.mul_mod_right]
  by_cases hdvd : visSteps ∣ ti
  · have hbeq : (ti % visSteps == 0) = true := hmod.mpr hdvd
    cases lastStep <;> cases gfprint <;> cases visualization <;> cases visit <;>
      simp [iterEvents, hbeq, hdvd, List.indexOf, List.findIdx, List.findIdx.go] <;>
      decide
  · have hbeq : (ti % visSteps == 0) = false := by
      simpa using mt hmod.mp hdvd
    cases lastStep <;> cases gfprint <;> cases visualization <;> cases visit <;>
      simp [iterEvents, hbeq, hdvd, List.indexOf, List.findIdx, List.findIdx.go] <;>
      decide

/-- Claim C6, witness: with everything enabled, `vis_steps = 1`, `ti = 1`,
the barrier comes before the visualization push. -/
theorem C6_iterEvents_witness :
    (iterEvents true true true 1 1 false).indexOf Event.barrier <
      (iterEvents true true true 1 1 false).indexOf Event.visPush :=
  (C6_iterEvents true true true 1 1 false).2.2.2 (by decide)

theorem cos_two_lt_cos_one : Real.cos 2 < Real.cos 1 := by
  have hpi := Real.pi_gt_three
  exact Real.strictAntiOn_cos (Set.mem_Icc.mpr ⟨by norm_num, by linarith⟩)
    (Set.mem_Icc.mpr ⟨by norm_num, by linarith⟩) (by norm_num)

/-- Claim C7, counterexample.  Two evaluations of `p_bc` at the same
position and time differ when the module-level mutable scalar `wj_`
(modelled as the explicit first argument) differs — e.g. after
`joule_solve` reassigns it from a different frequency — so the value is
not a function of (position, time) alone. -/
theorem C7_counterexample :
    p_bc 1 ![0, 0, -1] 1 ≠ p_bc 2 ![0, 0, -1] 1 := by
  have hx : (![0, 0, -1] : Fin 3 → ℝ) 2 < 0 := by norm_num
  simp only [p_bc, if_pos hx, one_mul, mul_one]
  have h := cos_two_lt_cos_one
  intro heq
  rw [heq] at h
  exact lt_irrefl _ h

/-- Claim C7, amended.  For a fixed value of the captured module-level
scalar `wj_`, `p_bc` is deterministic and depends only on `x[2]` and `t`;
but it does depend on `wj_`, a hidden mutable module-level global set at
setup from the frequency, so purity holds only relative to that captured
state — not unconditionally as the spec's contract states. -/
theorem C7_pbc_purity :
    (∀ (wj t : ℝ) (x x' : Fin 3 → ℝ), x 2 = x' 2 →
      p_bc wj x t = p_bc wj x' t) ∧
    (∃ (wj wj' t : ℝ) (x : Fin 3 → ℝ), p_bc wj x t ≠ p_bc wj' x t) := by
  constructor
  · intro wj t x x' h
    simp [p_bc, h]
  · refine ⟨1, 2, 1, ![0, 0, -1], ?_⟩
    have hx : (![0, 0, -1] : Fin 3 → ℝ) 2 < 0 := by norm_num
    simp only [p_bc, if_pos hx, one_mul, mul_one]
    have h := cos_two_lt_cos_one
    intro heq
    rw [heq] at h
    exact lt_irrefl _ h

/-- Claim C7, witness for the amended theorem: positions sharing the same
third coordinate give the same boundary value. -/
theorem C7_pbc_purity_witness :
    p_bc 1 ![0, 0, -1] 0 = p_bc 1 ![5, 7, -1] 0 :=
  C7_pbc_purity.1 1 0 ![0, 0, -1] ![5, 7, -1] rfl

/-- Claim C8: `p_bc` returns `cos(wj_ * t)` on the `x[2] < 0` face and
`-cos(wj_ * t)` on the opposite face, with `wj_ = 2*pi*freq`; at `t = 0`
it is exactly `+1` respectively `-1`, and its magnitude never exceeds 1. -/
theorem C8_pbc (freq t : ℝ) (x : Fin 3 → ℝ) :
    p_bc (wj_of_freq freq) x t =
      (if x 2 < 0 then Real.cos (wj_of_freq freq * t)
        else -Real.cos (wj_of_freq freq * t)) ∧
    wj_of_freq freq = 2 * Real.pi * freq ∧
    p_bc (wj_of_freq freq) x 0 = (if x 2 < 0 then (1 : ℝ) else -1) ∧
    |p_bc (wj_of_freq freq) x t| ≤ 1 := by
  refine ⟨?_, rfl, ?_, ?_⟩
  · simp only [p_bc]
    split_ifs <;> ring
  · simp only [p_bc, mul_zero, Real.cos_zero, mul_one]
  · simp only [p_bc]
    split_ifs
    · rw [one_mul]
      exact Real.abs_cos_le_one _
    · rw [neg_one_mul, abs_neg]
      exact Real.abs_cos_le_one _

/-- Claim C9: the essential E-field rate `edot_bc` writes the zero vector,
the reference solutions `e_exact` and `b_exact` set every component of
their output to zero, and `t_exact` returns zero, for every input. -/
theorem C9_zero_functions (x : Fin 3 → ℝ) (t : ℝ) (n : ℕ) (E0 : Fin n → ℝ)
    (i : Fin n) (j : Fin 3) :
    edot_bc x E0 i = 0 ∧ e_exact x t j = 0 ∧ b_exact x t j = 0 ∧
      t_exact x = 0 := by
  refine ⟨rfl, ?_, ?_, rfl⟩
  · fin_cases j <;> rfl
  · fin_cases j <;> rfl

/-- Claim C10: in the `gfprint` block the thermal-flux field is saved into
the stream of the B-field file after that stream was closed (so nothing is
stored), the stream opened for the thermal-flux file is closed with no
field ever written to it — the F-named file is created empty — while the
T, E, B, P and w streams each receive exactly their own field. -/
theorem C10_gfprint :
    gfprintBlock.F_ofs.written = [] ∧
    gfprintBlock.F_ofs.isClosed = true ∧
    gfprintBlock.F_ofs.attempted = [] ∧
    gfprintBlock.B_ofs.attempted = [(JField.B, true), (JField.F, false)] ∧
    gfprintBlock.B_ofs.written = [JField.B] ∧
    gfprintBlock.T_ofs.written = [JField.T] ∧
    gfprintBlock.E_ofs.written = [JField.E] ∧
    gfprintBlock.P_ofs.written = [JField.P] ∧
    gfprintBlock.w_ofs.written = [JField.w] := by
  decide
